import Mathlib

/-!
# Verification of the gas-shipment ingestion pipeline

Shallow embedding of the core of the `data-extract-app` repository
(`src/parser.py`, `src/database.py`, `src/downloader.py`, `src/config.py`)
and proofs of the specified properties.

Python dictionaries are modelled as insertion-ordered association lists,
Python `None` as `Option.none`, exceptions as `Option`/`Except` failures,
and the external services (PostgreSQL, HTTP, the filesystem cache) as
explicit state threaded through the functions that the source code drives.
-/

namespace GasApp

/-! ## Python string primitives used by the source -/

/-- The whitespace characters stripped by Python's `str.strip()`
(ASCII part, which covers every payload the pipeline handles). -/
def pyIsSpace (c : Char) : Bool :=
  c == ' ' || c == '\t' || c == '\n' || c == '\r' || c == '\x0b' || c == '\x0c'

/-- Model of Python `str.strip()`: drop leading and trailing whitespace. -/
def pyStrip (s : String) : String :=
  ⟨((s.toList.dropWhile pyIsSpace).reverse.dropWhile pyIsSpace).reverse⟩

/-- Model of Python `str.replace(old, new)` for single-character patterns,
as used by `value.replace(',', '')` and `gas_day.replace('/', '-')`. -/
def pyReplaceChar (s : String) (old : Char) (new : List Char) : String :=
  ⟨(s.toList.map (fun c => if c == old then new else [c])).flatten⟩

/-- Model of Python `sep.join(parts)`. -/
def pyJoin (sep : String) (parts : List String) : String :=
  match parts with
  | [] => ""
  | p :: ps => ps.foldl (fun acc q => acc ++ sep ++ q) p

/-! ## Python values and dict/row access

A CSV row produced by `csv.DictReader` maps header labels to cell values;
a cell can be Python `None` (`restval`) when the row is shorter than the
header.  We model a Python string-or-None value as `Option String`. -/

/-- A row as produced by `csv.DictReader`: header label to optional cell. -/
def Row : Type := List (String × Option String)

/-- Model of `row.get(k)` (default `None`): the stored value if the key is
present (which may itself be `None`), otherwise `None`. -/
def pyGet (row : Row) (k : String) : Option String :=
  match List.find? (fun p => p.1 == k) row with
  | some p => p.2
  | none => none

/-- Model of `row.get(k, d)`: the stored value if the key is present
(which may itself be `None`), otherwise the default `d`. -/
def pyGetDef (row : Row) (k : String) (d : String) : Option String :=
  match List.find? (fun p => p.1 == k) row with
  | some p => p.2
  | none => some d

/-- Python truthiness of a string-or-None value: `None` and `""` are falsy. -/
def pyTruthy : Option String → Bool
  | none => false
  | some s => !(s == "")

/-- Calling `.strip()` on a string-or-None value: on `None` this raises
`AttributeError` in Python, modelled as `Option` failure. -/
def stripVal : Option String → Option String
  | none => none
  | some s => some (pyStrip s)

/-! ## Numeric parsing (`CSVParser._parse_numeric`) -/

/-- Digits to a natural number. -/
def digitsToNat (ds : List Char) : Nat :=
  ds.foldl (fun a c => a * 10 + (c.toNat - 48)) 0

/-- Model of Python's builtin `float()` on finite decimal literals
(optional sign, digits with an optional fraction, optional exponent),
returning the exact rational value; any other shape is a `ValueError`,
modelled as `none`.  (`float()` is a Python builtin, external to the
repository; the pipeline only feeds it decimal CSV cells.) -/
def pyFloat (s : String) : Option Rat :=
  let (sign, rest) :=
    match s.toList with
    | '-' :: cs => ((-1 : Int), cs)
    | '+' :: cs => ((1 : Int), cs)
    | cs => ((1 : Int), cs)
  let ip := rest.takeWhile Char.isDigit
  let rest1 := rest.dropWhile Char.isDigit
  let (fp, rest2) :=
    match rest1 with
    | '.' :: cs => (cs.takeWhile Char.isDigit, cs.dropWhile Char.isDigit)
    | _ => ([], rest1)
  if ip.isEmpty && fp.isEmpty then none
  else
    let mant : Int := sign * (digitsToNat (ip ++ fp) : Int)
    match rest2 with
    | [] => some (mkRat mant (10 ^ fp.length))
    | e :: cs =>
      if e == 'e' || e == 'E' then
        let (esign, ecs) :=
          match cs with
          | '-' :: ds => ((-1 : Int), ds)
          | '+' :: ds => ((1 : Int), ds)
          | ds => ((1 : Int), ds)
        if ecs.isEmpty || !(ecs.all Char.isDigit) then none
        else
          let ex : Int := esign * (digitsToNat ecs : Int) - (fp.length : Int)
          if 0 ≤ ex then some (mkRat (mant * (10 : Int) ^ ex.toNat) 1)
          else some (mkRat mant (10 ^ (-ex).toNat))
      else none

/-- Model of `CSVParser._parse_numeric`: `None`, empty, or blank values
yield `None`; otherwise commas are removed, whitespace stripped, and the
result parsed as a float, with a parse failure yielding `None`. -/
def parse_numeric (value : Option String) : Option Rat :=
  match value with
  | none => none
  | some s =>
    if s == "" then none
    else if pyStrip s == "" then none
    else pyFloat (pyStrip (pyReplaceChar s ',' []))

/-! ## The parsed record (`CSVParser._clean_record` output) -/

/-- The canonical record shape produced by the parser (before the
orchestrator stamps `gas_day`/`cycle`). -/
structure Record where
  loc : String
  loc_zone : String
  loc_name : String
  loc_purpose : String
  measure_basis : String
  oper_capacity : Option Rat
  design_capacity : Option Rat
  scheduled_qty : Option Rat
  operationally_available : Option Rat
  total_scheduled : Option Rat
deriving DecidableEq, Repr

/-- Model of `CSVParser._clean_record`: `none` both for the explicit
validation rejection (`if not row.get('Loc'): return None`) and for an
exception raised while cleaning (e.g. `.strip()` on a `None` cell),
which the source catches and converts to `None`. -/
def clean_record (row : Row) : Option Record :=
  if pyTruthy (pyGet row "Loc") = false then none
  else
    match stripVal (pyGetDef row "Loc" ""), stripVal (pyGetDef row "Loc Zone" ""),
          stripVal (pyGetDef row "Loc Name" ""), stripVal (pyGetDef row "Loc Purpose" ""),
          stripVal (pyGetDef row "Meas Basis Desc" "") with
    | some loc, some loc_zone, some loc_name, some loc_purpose, some measure_basis =>
      some { loc := loc, loc_zone := loc_zone, loc_name := loc_name,
             loc_purpose := loc_purpose, measure_basis := measure_basis,
             oper_capacity := parse_numeric (pyGetDef row "Oper Capacity" ""),
             design_capacity := parse_numeric (pyGetDef row "Design Capacity" ""),
             scheduled_qty := parse_numeric (pyGetDef row "Scheduled Qty" ""),
             operationally_available := parse_numeric (pyGetDef row "Operationally Available" ""),
             total_scheduled := parse_numeric (pyGetDef row "Total Scheduled" "") }
    | _, _, _, _, _ => none

/-- Model of `CSVParser.parse_csv` from the row stream onward
(`csv.DictReader` is Python stdlib, external to the repository; its
output is the list of header-labelled rows).  Each row is cleaned; a
cleaned record is appended, a `None` result is skipped with a log line,
and an exception from cleaning one row is caught and that row skipped. -/
def parse_csv (rows : List Row) : List Record :=
  rows.foldl
    (fun acc row =>
      match clean_record row with
      | some record => acc ++ [record]
      | none => acc) []

/-! ## The database layer (`src/database.py`)

Records reaching the database are parser records stamped by the
orchestrator with `gas_day` and `cycle` (`main.py`), so they carry the
full column set of the `gas_shipments` table.  PostgreSQL is modelled as
an explicit store: a list of rows, each a record plus its `created_at`
timestamp; the `UNIQUE(loc, gas_day, cycle)` constraint is the invariant
that the natural keys of the rows are pairwise distinct. -/

/-- A record as inserted by `Database.insert_records`: the parser record
plus the `gas_day`/`cycle` stamp added by the orchestrator. -/
structure DBRecord where
  loc : String
  loc_zone : String
  loc_name : String
  loc_purpose : String
  measure_basis : String
  oper_capacity : Option Rat
  design_capacity : Option Rat
  scheduled_qty : Option Rat
  operationally_available : Option Rat
  total_scheduled : Option Rat
  gas_day : String
  cycle : Int
deriving DecidableEq, Repr

/-- The natural key `(record['loc'], record['gas_day'], record['cycle'])`. -/
abbrev NatKey : Type := String × String × Int

def natKey (r : DBRecord) : NatKey := (r.loc, r.gas_day, r.cycle)

/-- The tuple of columns listed in the `ON CONFLICT ... DO UPDATE SET`
clause (every column other than the natural key and the id). -/
def nonKeyCols (r : DBRecord) :
    String × String × String × String × Option Rat × Option Rat × Option Rat ×
      Option Rat × Option Rat :=
  (r.loc_zone, r.loc_name, r.loc_purpose, r.measure_basis, r.oper_capacity,
   r.design_capacity, r.scheduled_qty, r.operationally_available, r.total_scheduled)

/-- Python dict assignment `unique_records[key] = record`: replace the value
in place if the key is present, otherwise append (insertion order). -/
def dictInsert : List (NatKey × DBRecord) → NatKey → DBRecord → List (NatKey × DBRecord)
  | [], k, v => [(k, v)]
  | p :: m, k, v => if p.1 == k then (k, v) :: m else p :: dictInsert m k v

/-- Model of `Database.remove_duplicates`: build a dict keyed by the natural
key (later records overwrite earlier ones) and return its values. -/
def remove_duplicates (records : List DBRecord) : List DBRecord :=
  if records.isEmpty then []
  else (records.foldl (fun m r => dictInsert m (natKey r) r) []).map Prod.snd

/-- A stored row of `gas_shipments`: its columns and its `created_at`
timestamp (the serial `id` plays no role in the specified behaviour). -/
abbrev StoreRow : Type := DBRecord × Nat

/-- The `gas_shipments` table. -/
abbrev Store : Type := List StoreRow

/-- The `DO UPDATE SET` clause: overwrite every non-key column of the
existing row with the `EXCLUDED` (incoming) values; key columns are not
in the SET list (they are equal on conflict anyway). -/
def applyUpdate (old new : DBRecord) : DBRecord :=
  { old with
    loc_zone := new.loc_zone, loc_name := new.loc_name,
    loc_purpose := new.loc_purpose, measure_basis := new.measure_basis,
    oper_capacity := new.oper_capacity, design_capacity := new.design_capacity,
    scheduled_qty := new.scheduled_qty,
    operationally_available := new.operationally_available,
    total_scheduled := new.total_scheduled }

/-- PostgreSQL semantics of one `VALUES` row of
`INSERT ... ON CONFLICT (loc, gas_day, cycle) DO UPDATE SET ...,
created_at = CURRENT_TIMESTAMP`: update the (under the unique constraint,
unique) existing row with the conflicting key, refreshing its timestamp,
else append a fresh row stamped with the statement timestamp. -/
def upsertRow : Store → DBRecord → Nat → Store
  | [], r, t => [(r, t)]
  | p :: s, r, t =>
    if natKey p.1 == natKey r then (applyUpdate p.1 r, t) :: s
    else p :: upsertRow s r t

/-- One `execute_values` statement over a (deduplicated) list of records:
each `VALUES` row is upserted; all rows share the statement timestamp.
With `fetch=True` the statement returns one `RETURNING` row per `VALUES`
row (each is inserted or updated), so the fetched count is the list length. -/
def applyGroup (s : Store) (g : List DBRecord) (t : Nat) : Store :=
  g.foldl (fun s r => upsertRow s r t) s

/-- A sequence of committed `execute_values` statements, one per batch. -/
def applyGroups (s : Store) (gs : List (List DBRecord)) (t : Nat) : Store :=
  gs.foldl (fun s g => applyGroup s g t) s

/-- Model of `Database.insert_records` (the all-at-once variant) when the
storage layer does not fail: returns the new store and the count
`len(result)` of `RETURNING` rows. -/
def insert_records (s : Store) (records : List DBRecord) (t : Nat) : Store × Nat :=
  if records.isEmpty then (s, 0)
  else
    let unique := remove_duplicates records
    if unique.isEmpty then (s, 0)
    else (applyGroup s unique t, unique.length)

/-- The batch slicing `unique_records[i:i+group_size]` of the while-loop in
`Database.insert_in_small_groups` (the loop diverges for `group_size = 0`,
which no caller uses; that case is mapped to a single batch). -/
def chunks : Nat → List DBRecord → List (List DBRecord)
  | _, [] => []
  | 0, l => [l]
  | n + 1, x :: xs =>
    (x :: xs).take (n + 1) :: chunks (n + 1) ((x :: xs).drop (n + 1))
termination_by _ l => l.length
decreasing_by
  simp only [List.length_drop, List.length_cons]
  omega

/-- The while-loop of `Database.insert_in_small_groups` with an explicit
storage-failure oracle: `fail k = true` means the `execute_values` call of
batch `k` raises, in which case that batch's transaction is rolled back
(the store keeps only the previously committed batches, which are durable)
and the exception propagates (`Except.error`); the error value carries the
store and the running count `total_inserted` last logged.  A successful
batch is committed and adds its size to the running count. -/
def insertGroupsLoop (fail : Nat → Bool) (t : Nat) :
    Store → List (List DBRecord) → Nat → Nat → Except (Store × Nat) (Store × Nat)
  | s, [], _, acc => .ok (s, acc)
  | s, g :: gs, k, acc =>
    if fail k then .error (s, acc)
    else insertGroupsLoop fail t (applyGroup s g t) gs (k + 1) (acc + g.length)

/-- Model of `Database.insert_in_small_groups`. -/
def insert_in_small_groups (s : Store) (records : List DBRecord) (group_size : Nat)
    (fail : Nat → Bool) (t : Nat) : Except (Store × Nat) (Store × Nat) :=
  if records.isEmpty then .ok (s, 0)
  else
    let unique := remove_duplicates records
    if unique.isEmpty then .ok (s, 0)
    else insertGroupsLoop fail t s (chunks group_size unique) 0 0

/-! ## Proof-side predicates and sample data -/

/-- Well-formedness of the `unique_records` dict: keys are pairwise distinct
and each entry's key is the natural key of its value. -/
def alistWF (m : List (NatKey × DBRecord)) : Prop :=
  (m.map Prod.fst).Nodup ∧ ∀ p ∈ m, natKey p.2 = p.1

/-- The fold building `unique_records` in `Database.remove_duplicates`. -/
def foldIns (m : List (NatKey × DBRecord)) (rs : List DBRecord) :
    List (NatKey × DBRecord) :=
  rs.foldl (fun m r => dictInsert m (natKey r) r) m

/-- The `UNIQUE(loc, gas_day, cycle)` table constraint: the stored rows
have pairwise distinct natural keys. -/
def storeWF (s : Store) : Prop :=
  (s.map (fun p => natKey p.1)).Nodup

/-- A sample stamped record used for concrete instantiations. -/
def sampleRec (l : String) (c : Int) : DBRecord :=
  { loc := l, loc_zone := "", loc_name := "", loc_purpose := "",
    measure_basis := "", oper_capacity := none, design_capacity := none,
    scheduled_qty := none, operationally_available := none,
    total_scheduled := none, gas_day := "2025-10-09", cycle := c }

/-! ## Configuration (`src/config.py`) -/

namespace Config

def BASE_URL : String :=
  "https://twtransfer.energytransfer.com/ipost/capacity/operationally-available"

/-- The fixed base query parameters, in dict insertion order. -/
def URL_PARAMS : List (String × String) :=
  [("f", "csv"), ("extension", "csv"), ("asset", "TW"), ("searchType", "NOM"),
   ("searchString", ""), ("locType", "ALL"), ("locZone", "ALL")]

def REQUEST_TIMEOUT : Nat := 30

def MAX_RETRIES : Nat := 3

def RETRY_DELAY : Nat := 5

/-- Modelled from the spec: the configurable directory for cached CSV files
(`Config.TEMP_FOLDER`, read via `.env`) is referenced by the downloader but
absent from the checked-in `config.py`; the spec only requires "a
configurable directory", so a fixed placeholder stands in for it. -/
def TEMP_FOLDER : String := "temp_csv"

end Config

/-! ## URL quoting (`urllib.parse.quote`, Python stdlib) -/

/-- Characters never quoted by `urllib.parse.quote`: ASCII letters, digits,
and `_.-~`. -/
def isAlwaysSafe (c : Char) : Bool :=
  (('A' ≤ c && c ≤ 'Z') || ('a' ≤ c && c ≤ 'z') || ('0' ≤ c && c ≤ '9')
    || c == '_' || c == '.' || c == '-' || c == '~')

def hexDigit (n : Nat) : Char :=
  if n < 10 then Char.ofNat (48 + n) else Char.ofNat (55 + n)

def percentByte (b : Nat) : List Char :=
  ['%', hexDigit (b / 16), hexDigit (b % 16)]

/-- The UTF-8 bytes of a character. -/
def utf8Bytes (c : Char) : List Nat :=
  let n := c.toNat
  if n < 0x80 then [n]
  else if n < 0x800 then [0xC0 + n / 64, 0x80 + n % 64]
  else if n < 0x10000 then
    [0xE0 + n / 4096, 0x80 + (n / 64) % 64, 0x80 + n % 64]
  else
    [0xF0 + n / 262144, 0x80 + (n / 4096) % 64, 0x80 + (n / 64) % 64, 0x80 + n % 64]

/-- Model of `urllib.parse.quote(s)` with its default `safe='/'`: characters
in the unreserved set and the slash pass through; every other character is
percent-encoded byte by byte (uppercase hex). -/
def pyQuote (s : String) : String :=
  ⟨(s.toList.map (fun c =>
      if isAlwaysSafe c || c == '/' then [c]
      else (utf8Bytes c).map percentByte |>.flatten)).flatten⟩

/-- Python dict assignment `params[k] = v` on a string-valued dict. -/
def pyDictSet : List (String × String) → String → String → List (String × String)
  | [], k, v => [(k, v)]
  | p :: m, k, v => if p.1 == k then (k, v) :: m else p :: pyDictSet m k v

/-! ## The downloader (`src/downloader.py`)

The HTTP layer (`requests`, external) is modelled as an oracle mapping the
attempt number to its outcome; the on-disk cache (the temp folder) as an
association list from file path to content.  `time.sleep` calls are
recorded in a trace. -/

/-- Outcome of one `session.get` call: a response, or a
`requests.RequestException`. -/
inductive HttpResult where
  | response (status : Nat) (content_type : String) (body : String)
  | exception
deriving DecidableEq, Repr

/-- The observable result of `download_csv`: the returned
`(content, path)` pair, the cache state, the number of network calls
issued, and the sequence of sleeps performed. -/
structure FetchResult where
  content : Option String
  path : Option String
  files : List (String × String)
  network_calls : Nat
  sleeps : List Nat
deriving DecidableEq, Repr

/-- Whether the first character list is an initial segment of the second. -/
def startsWithChars : List Char → List Char → Bool
  | [], _ => true
  | _ :: _, [] => false
  | a :: as, b :: bs => (a == b) && startsWithChars as bs

/-- Python's substring test `needle in hay` on character lists. -/
def containsChars (needle : List Char) : List Char → Bool
  | [] => startsWithChars needle []
  | b :: bs => startsWithChars needle (b :: bs) || containsChars needle bs

/-- Model of `'text/csv' in content_type or 'application/csv' in content_type`. -/
def isCsvContentType (content_type : String) : Bool :=
  containsChars "text/csv".toList content_type.toList
    || containsChars "application/csv".toList content_type.toList

/-- Model of `'text/html' in content_type and 'No data found' in response.text`. -/
def isHtmlNoData (content_type body : String) : Bool :=
  containsChars "text/html".toList content_type.toList
    && containsChars "No data found".toList body.toList

/-- Read a cache file (`os.path.exists` + `open(...).read()`). -/
def fileRead (files : List (String × String)) (path : String) : Option String :=
  match List.find? (fun p => p.1 == path) files with
  | some p => some p.2
  | none => none

/-- Write a cache file, overwriting any previous content. -/
def fileWrite : List (String × String) → String → String → List (String × String)
  | [], path, content => [(path, content)]
  | p :: fs, path, content =>
    if p.1 == path then (path, content) :: fs else p :: fileWrite fs path content

/-- Model of `CSVDownloader.get_temp_file_path`: `MM/DD/YYYY` is rewritten
to `YYYY-MM-DD`, any other shape has its slashes replaced by dashes. -/
def get_temp_file_path (gas_day : String) (cycle : Int) : String :=
  let formatted_date :=
    match gas_day.splitOn "/" with
    | [m, d, y] => y ++ "-" ++ m ++ "-" ++ d
    | _ => pyReplaceChar gas_day '/' ['-']
  Config.TEMP_FOLDER ++ "/gas_data_" ++ formatted_date ++ "_cycle_"
    ++ toString cycle ++ ".csv"

/-- Model of `CSVDownloader.build_url`: copy the base params, assign the
quoted gas day and the stringified cycle, and join `k=v` pairs with `&`. -/
def build_url (gas_day : String) (cycle : Int) : String :=
  let params :=
    pyDictSet (pyDictSet Config.URL_PARAMS "gasDay" (pyQuote gas_day))
      "cycle" (toString cycle)
  Config.BASE_URL ++ "?" ++ pyJoin "&" (params.map (fun p => p.1 ++ "=" ++ p.2))

/-- The retry loop `for attempt in range(1, MAX_RETRIES + 1)` of
`CSVDownloader.download_csv`: a CSV-typed 200 response is cached and
returned; a 200 HTML "No data found" body and any other 200 content type
return `(None, None)` without retrying; a non-200 status or a request
exception retries, sleeping `RETRY_DELAY` between attempts, and exhaustion
returns `(None, None)`. -/
def download_attempts (resp : Nat → HttpResult) (files : List (String × String))
    (path : String) : List Nat → Nat → List Nat → FetchResult
  | [], calls, sleeps => ⟨none, none, files, calls, sleeps.reverse⟩
  | attempt :: rest, calls, sleeps =>
    match resp attempt with
    | .response status content_type body =>
      if status == 200 then
        if isCsvContentType content_type then
          ⟨some body, some path, fileWrite files path body, calls + 1, sleeps.reverse⟩
        else if isHtmlNoData content_type body then
          ⟨none, none, files, calls + 1, sleeps.reverse⟩
        else
          ⟨none, none, files, calls + 1, sleeps.reverse⟩
      else
        if rest.isEmpty then ⟨none, none, files, calls + 1, sleeps.reverse⟩
        else download_attempts resp files path rest (calls + 1)
          (Config.RETRY_DELAY :: sleeps)
    | .exception =>
      if rest.isEmpty then ⟨none, none, files, calls + 1, sleeps.reverse⟩
      else download_attempts resp files path rest (calls + 1)
        (Config.RETRY_DELAY :: sleeps)

/-- Model of `CSVDownloader.download_csv`: if the cache file for the
`(gas_day, cycle)` key exists its content is returned with no network
I/O; otherwise the retry loop runs. -/
def download_csv (files : List (String × String)) (resp : Nat → HttpResult)
    (gas_day : String) (cycle : Int) : FetchResult :=
  let temp_file_path := get_temp_file_path gas_day cycle
  match fileRead files temp_file_path with
  | some content => ⟨some content, some temp_file_path, files, 0, []⟩
  | none =>
    download_attempts resp files temp_file_path
      (List.range' 1 Config.MAX_RETRIES) 0 []

/-- A transient failure in the taxonomy of the retry loop: a non-200
status or a transport exception. -/
def failedAttempt : HttpResult → Bool
  | .response status _ _ => !(status == 200)
  | .exception => true

/-! ## Parser lemmas -/

theorem parse_csv_foldl_acc (rows : List Row) (acc : List Record) :
    rows.foldl
      (fun acc row =>
        match clean_record row with
        | some record => acc ++ [record]
        | none => acc) acc = acc ++ rows.filterMap clean_record := by
  induction rows generalizing acc with
  | nil => simp
  | cons row rest ih =>
    simp only [List.foldl_cons, List.filterMap_cons]
    cases h : clean_record row with
    | none => simp [h, ih]
    | some r => simp [h, ih]

theorem parse_csv_eq_filterMap (rows : List Row) :
    parse_csv rows = rows.filterMap clean_record := by
  simpa using parse_csv_foldl_acc rows []

theorem pyGetDef_of_pyGet_some (row : Row) (k d s : String)
    (h : pyGet row k = some s) : pyGetDef row k d = some s := by
  unfold pyGet at h
  unfold pyGetDef
  cases hf : List.find? (fun p => p.1 == k) row with
  | none => rw [hf] at h; exact absurd h (by simp)
  | some p => rw [hf] at h; rw [h]

theorem mem_dropWhile_of_neg {c : Char} (p : Char → Bool) :
    ∀ l : List Char, c ∈ l → p c = false → c ∈ l.dropWhile p := by
  intro l
  induction l with
  | nil => intro h; simp at h
  | cons a t ih =>
    intro hc hpc
    rw [List.dropWhile_cons]
    by_cases hpa : p a = true
    · rw [if_pos hpa]
      rcases List.mem_cons.mp hc with rfl | ht
      · rw [hpa] at hpc; exact absurd hpc (by simp)
      · exact ih ht hpc
    · rw [if_neg hpa]; exact hc

theorem pyStrip_ne_empty_of_nonspace {s : String} {c : Char}
    (hc : c ∈ s.toList) (hns : pyIsSpace c = false) : pyStrip s ≠ "" := by
  unfold pyStrip
  have h1 : c ∈ s.toList.dropWhile pyIsSpace := mem_dropWhile_of_neg _ _ hc hns
  have h2 : c ∈ (s.toList.dropWhile pyIsSpace).reverse := List.mem_reverse.mpr h1
  have h3 : c ∈ (s.toList.dropWhile pyIsSpace).reverse.dropWhile pyIsSpace :=
    mem_dropWhile_of_neg _ _ h2 hns
  have h4 : c ∈ ((s.toList.dropWhile pyIsSpace).reverse.dropWhile pyIsSpace).reverse :=
    List.mem_reverse.mpr h3
  intro heq
  have : ((s.toList.dropWhile pyIsSpace).reverse.dropWhile pyIsSpace).reverse = [] :=
    congrArg String.data heq
  rw [this] at h4
  simp at h4

/-- C4: for every list of reader rows, a row whose required natural-key field
is empty (or whose cleaning fails) is skipped without aborting the rest:
parsing the surrounding rows proceeds exactly as if the bad row were absent.
Concretely, three valid rows plus one row with an empty location field yield
exactly the three cleaned records, in source row order. -/
theorem parse_csv_row_fault_isolation :
    (∀ (pre post : List Row) (bad : Row), clean_record bad = none →
      parse_csv (pre ++ bad :: post) = parse_csv pre ++ parse_csv post)
    ∧ parse_csv
        [[("Loc", some "ALPHA"), ("Loc Zone", some "Z1"), ("Loc Name", some "Alpha Station"),
          ("Loc Purpose", some "RECEIPT"), ("Meas Basis Desc", some "MMBTU"),
          ("Oper Capacity", some "1,000"), ("Scheduled Qty", some "500")],
         [("Loc", some ""), ("Loc Name", some "No Loc")],
         [("Loc", some "BRAVO"), ("Loc Zone", some "Z2"), ("Loc Name", some "Bravo Station"),
          ("Loc Purpose", some "DELIVERY"), ("Meas Basis Desc", some "MMBTU"),
          ("Oper Capacity", some "")],
         [("Loc", some "CHARLIE"), ("Loc Zone", some "Z3"), ("Loc Name", some "Charlie Hub"),
          ("Loc Purpose", some "RECEIPT"), ("Meas Basis Desc", some "MMBTU"),
          ("Design Capacity", some "250")]] =
        [{ loc := "ALPHA", loc_zone := "Z1", loc_name := "Alpha Station",
           loc_purpose := "RECEIPT", measure_basis := "MMBTU",
           oper_capacity := some 1000, design_capacity := none, scheduled_qty := some 500,
           operationally_available := none, total_scheduled := none },
         { loc := "BRAVO", loc_zone := "Z2", loc_name := "Bravo Station",
           loc_purpose := "DELIVERY", measure_basis := "MMBTU",
           oper_capacity := none, design_capacity := none, scheduled_qty := none,
           operationally_available := none, total_scheduled := none },
         { loc := "CHARLIE", loc_zone := "Z3", loc_name := "Charlie Hub",
           loc_purpose := "RECEIPT", measure_basis := "MMBTU",
           oper_capacity := none, design_capacity := some 250, scheduled_qty := none,
           operationally_available := none, total_scheduled := none }] := by
  constructor
  · intro pre post bad hbad
    rw [parse_csv_eq_filterMap, parse_csv_eq_filterMap, parse_csv_eq_filterMap,
      List.filterMap_append, List.filterMap_cons, hbad]
  · decide

/-- Witness for C4 at a concrete input: a row with an empty `Loc` field is
dropped and parsing of the surrounding rows is unaffected. -/
theorem parse_csv_row_fault_isolation_witness :
    parse_csv ([[("Loc", some "ALPHA")]] ++
        [("Loc", some ""), ("Loc Name", some "No Loc")] :: [[("Loc", some "BRAVO")]]) =
      parse_csv [[("Loc", some "ALPHA")]] ++ parse_csv [[("Loc", some "BRAVO")]] :=
  parse_csv_row_fault_isolation.1 [[("Loc", some "ALPHA")]] [[("Loc", some "BRAVO")]]
    [("Loc", some ""), ("Loc Name", some "No Loc")] (by decide)

/-- C5 counterexample: a row whose `Loc` cell is the single blank `" "` passes
the truthiness check (`if not row.get('Loc')`) but is stripped afterwards, so
the parser emits a record whose `loc` is the empty string — refuting the claim
that every parsed record has a non-empty `loc`. -/
theorem parse_csv_empty_loc_counterexample :
    (parse_csv [[("Loc", some " ")]]).map Record.loc = [""] := by
  decide

/-- C5 (amended): every record the parser returns takes its `loc` from a source
row whose `Loc` cell was a non-empty string before stripping, with `loc` equal
to the stripped value; consequently `loc` is non-empty whenever that source
cell contains at least one non-whitespace character (but a whitespace-only
`Loc` cell yields a record with an empty `loc`). -/
theorem parse_csv_loc_from_truthy_source (rows : List Row) (r : Record)
    (hr : r ∈ parse_csv rows) :
    ∃ row ∈ rows, ∃ s, pyGet row "Loc" = some s ∧ s ≠ "" ∧ r.loc = pyStrip s ∧
      ((∃ c ∈ s.toList, pyIsSpace c = false) → r.loc ≠ "") := by
  rw [parse_csv_eq_filterMap] at hr
  obtain ⟨row, hrow, hclean⟩ := List.mem_filterMap.mp hr
  refine ⟨row, hrow, ?_⟩
  unfold clean_record at hclean
  by_cases hg : pyTruthy (pyGet row "Loc") = false
  · rw [if_pos hg] at hclean; exact absurd hclean (by simp)
  · rw [if_neg hg] at hclean
    cases hpg : pyGet row "Loc" with
    | none => rw [hpg] at hg; exact absurd rfl hg
    | some s =>
      have hs : s ≠ "" := by
        intro h
        rw [hpg, h] at hg
        exact hg rfl
      refine ⟨s, rfl, hs, ?_⟩
      have hdef : pyGetDef row "Loc" "" = some s := pyGetDef_of_pyGet_some row _ _ s hpg
      rw [hdef] at hclean
      have hstrip : stripVal (some s) = some (pyStrip s) := rfl
      rw [hstrip] at hclean
      split at hclean
      case _ loc loc_zone loc_name loc_purpose measure_basis h1 h2 h3 h4 h5 =>
        have hloc : loc = pyStrip s := by
          have := h1
          simp at this
          exact this.symm
        have hrloc : r.loc = pyStrip s := by
          have := hclean
          injection this with h
          rw [← h, hloc]
        refine ⟨hrloc, ?_⟩
        rintro ⟨c, hc, hcs⟩
        rw [hrloc]
        exact pyStrip_ne_empty_of_nonspace hc hcs
      case _ => exact absurd hclean (by simp)

/-- Witness for C5 (amended) at a concrete input. -/
theorem parse_csv_loc_from_truthy_source_witness :
    ∃ row ∈ [[("Loc", some " ALPHA ")]], ∃ s, pyGet row "Loc" = some s ∧ s ≠ "" ∧
      ({ loc := "ALPHA", loc_zone := "", loc_name := "", loc_purpose := "",
         measure_basis := "", oper_capacity := none, design_capacity := none,
         scheduled_qty := none, operationally_available := none,
         total_scheduled := none } : Record).loc = pyStrip s ∧
      ((∃ c ∈ s.toList, pyIsSpace c = false) →
        ({ loc := "ALPHA", loc_zone := "", loc_name := "", loc_purpose := "",
           measure_basis := "", oper_capacity := none, design_capacity := none,
           scheduled_qty := none, operationally_available := none,
           total_scheduled := none } : Record).loc ≠ "") :=
  parse_csv_loc_from_truthy_source [[("Loc", some " ALPHA ")]] _ (by decide)

/-! ## Deduplication lemmas -/

theorem mem_dictInsert {p : NatKey × DBRecord} :
    ∀ (m : List (NatKey × DBRecord)) (k : NatKey) (v : DBRecord),
      p ∈ dictInsert m k v → p ∈ m ∨ p = (k, v) := by
  intro m
  induction m with
  | nil => intro k v h; simp [dictInsert] at h; right; exact h
  | cons q m' ih =>
    intro k v h
    rw [dictInsert] at h
    by_cases hq : q.1 == k
    · rw [if_pos hq] at h
      rcases List.mem_cons.mp h with rfl | hm
      · right; rfl
      · left; exact List.mem_cons_of_mem _ hm
    · rw [if_neg hq] at h
      rcases List.mem_cons.mp h with rfl | hm
      · left; exact List.mem_cons_self _ _
      · rcases ih k v hm with h1 | h2
        · left; exact List.mem_cons_of_mem _ h1
        · right; exact h2

theorem alistWF_dictInsert {m : List (NatKey × DBRecord)} {k : NatKey} {v : DBRecord}
    (h : alistWF m) (hv : natKey v = k) : alistWF (dictInsert m k v) := by
  induction m with
  | nil =>
    refine ⟨by simp [dictInsert], ?_⟩
    intro p hp
    simp [dictInsert] at hp
    rw [hp, hv]
  | cons q m' ih =>
    obtain ⟨hnd, hval⟩ := h
    rw [List.map_cons, List.nodup_cons] at hnd
    rw [dictInsert]
    by_cases hq : q.1 == k
    · rw [if_pos hq]
      have hqk : q.1 = k := by simpa using hq
      constructor
      · rw [List.map_cons, List.nodup_cons]
        exact ⟨by rw [← hqk]; exact hnd.1, hnd.2⟩
      · intro p hp
        rcases List.mem_cons.mp hp with rfl | hm
        · exact hv
        · exact hval p (List.mem_cons_of_mem _ hm)
    · rw [if_neg hq]
      have hwf' : alistWF m' := ⟨hnd.2, fun p hp => hval p (List.mem_cons_of_mem _ hp)⟩
      obtain ⟨ihnd, ihval⟩ := ih hwf'
      constructor
      · rw [List.map_cons, List.nodup_cons]
        refine ⟨?_, ihnd⟩
        intro hmem
        rw [List.mem_map] at hmem
        obtain ⟨p, hp, hp1⟩ := hmem
        rcases mem_dictInsert m' k v hp with h1 | h2
        · exact hnd.1 (List.mem_map.mpr ⟨p, h1, hp1⟩)
        · rw [h2] at hp1
          have hk : k = q.1 := by simpa using hp1
          exact hq (by simp [hk])
      · intro p hp
        rcases List.mem_cons.mp hp with rfl | hm
        · exact hval p (List.mem_cons_self _ _)
        · exact ihval p hm

theorem filter_dictInsert_self {m : List (NatKey × DBRecord)} (k : NatKey) (v : DBRecord)
    (h : (m.map Prod.fst).Nodup) :
    (dictInsert m k v).filter (fun p => p.1 == k) = [(k, v)] := by
  induction m with
  | nil => simp [dictInsert]
  | cons q m' ih =>
    rw [List.map_cons, List.nodup_cons] at h
    rw [dictInsert]
    by_cases hq : q.1 == k
    · rw [if_pos hq]
      have hqk : q.1 = k := by simpa using hq
      rw [List.filter_cons]
      simp only [beq_self_eq_true, if_pos]
      have : m'.filter (fun p => p.1 == k) = [] := by
        rw [List.filter_eq_nil_iff]
        intro p hp hpk
        have : p.1 = k := by simpa using hpk
        exact h.1 (List.mem_map.mpr ⟨p, hp, by rw [this, ← hqk]⟩)
      rw [this]
    · rw [if_neg hq, List.filter_cons, if_neg (by simpa using hq)]
      exact ih h.2

theorem filter_dictInsert_other {m : List (NatKey × DBRecord)} {k q : NatKey} (v : DBRecord)
    (hne : k ≠ q) :
    (dictInsert m k v).filter (fun p => p.1 == q) = m.filter (fun p => p.1 == q) := by
  induction m with
  | nil => simp [dictInsert, hne]
  | cons p m' ih =>
    rw [dictInsert]
    by_cases hp : p.1 == k
    · rw [if_pos hp]
      have hpk : p.1 = k := by simpa using hp
      rw [List.filter_cons, List.filter_cons, if_neg (by simpa using hne),
        if_neg (by rw [hpk]; simpa using hne)]
    · rw [if_neg hp, List.filter_cons, List.filter_cons]
      by_cases hpq : p.1 == q
      · rw [if_pos (by simpa using hpq), if_pos (by simpa using hpq), ih]
      · rw [if_neg (by simpa using hpq), if_neg (by simpa using hpq), ih]

theorem alistWF_foldIns {m : List (NatKey × DBRecord)} (rs : List DBRecord)
    (h : alistWF m) : alistWF (foldIns m rs) := by
  induction rs generalizing m with
  | nil => exact h
  | cons r rs' ih => exact ih (alistWF_dictInsert h rfl)

theorem getLast?_cons_of_ne_nil {α : Type} (a : α) {l : List α} (h : l ≠ []) :
    (a :: l).getLast? = l.getLast? := by
  cases l with
  | nil => exact absurd rfl h
  | cons b m => exact List.getLast?_cons_cons

theorem foldIns_filter_of_not_mem (q : NatKey) :
    ∀ (rs : List DBRecord) (m : List (NatKey × DBRecord)),
      rs.filter (fun r => natKey r == q) = [] →
      (foldIns m rs).filter (fun p => p.1 == q) = m.filter (fun p => p.1 == q) := by
  intro rs
  induction rs with
  | nil => intro m _; rfl
  | cons r rs' ih =>
    intro m hnil
    rw [List.filter_cons] at hnil
    by_cases hq : (natKey r == q) = true
    · rw [if_pos hq] at hnil; exact absurd hnil (by simp)
    · rw [if_neg hq] at hnil
      have hstep : foldIns m (r :: rs') = foldIns (dictInsert m (natKey r) r) rs' := rfl
      rw [hstep, ih _ hnil, filter_dictInsert_other r (by simpa using hq)]

theorem foldIns_filter_getLast (q : NatKey) :
    ∀ (rs : List DBRecord) (m : List (NatKey × DBRecord)) (r'' : DBRecord), alistWF m →
      (rs.filter (fun r => natKey r == q)).getLast? = some r'' →
      (foldIns m rs).filter (fun p => p.1 == q) = [(q, r'')] := by
  intro rs
  induction rs with
  | nil => intro m r'' _ h; exact absurd h (by simp)
  | cons r rs' ih =>
    intro m r'' hwf hlast
    have hstep : foldIns m (r :: rs') = foldIns (dictInsert m (natKey r) r) rs' := rfl
    rw [List.filter_cons] at hlast
    cases hrs' : (rs'.filter (fun r => natKey r == q)).getLast? with
    | some x =>
      have hne : rs'.filter (fun r => natKey r == q) ≠ [] := by
        intro h; rw [h] at hrs'; simp at hrs'
      have hx : x = r'' := by
        by_cases hq : (natKey r == q) = true
        · rw [if_pos hq, getLast?_cons_of_ne_nil _ hne, hrs'] at hlast
          exact (Option.some_inj.mp hlast)
        · rw [if_neg hq, hrs'] at hlast
          exact (Option.some_inj.mp hlast)
      rw [hstep, ih _ r'' (alistWF_dictInsert hwf rfl) (by rw [hrs', hx])]
    | none =>
      have hnil : rs'.filter (fun r => natKey r == q) = [] :=
        List.getLast?_eq_none_iff.mp hrs'
      by_cases hq : (natKey r == q) = true
      · rw [if_pos hq, hnil] at hlast
        have hr'' : r = r'' := by simpa using hlast
        have hkq : natKey r = q := by simpa using hq
        rw [hstep, foldIns_filter_of_not_mem q rs' _ hnil, ← hkq,
          filter_dictInsert_self (natKey r) r hwf.1, hkq, hr'']
      · rw [if_neg hq, hnil] at hlast
        exact absurd hlast (by simp)

/-- C3: `remove_duplicates` keeps, for every natural key, exactly the last
input record with that key (and nothing else); in particular there is at
most one output record per key, empty input yields empty output, and the
function is total on well-formed record lists. -/
theorem remove_duplicates_last_wins :
    (∀ (records : List DBRecord) (q : NatKey),
      (remove_duplicates records).filter (fun r => natKey r == q) =
        ((records.filter (fun r => natKey r == q)).getLast?).toList)
    ∧ remove_duplicates [] = [] := by
  constructor
  · intro records q
    cases records with
    | nil => simp [remove_duplicates]
    | cons r rs =>
      rw [remove_duplicates, if_neg (by simp)]
      have hwf0 : alistWF [] := ⟨List.nodup_nil, by simp⟩
      have hwf := alistWF_foldIns (m := []) (r :: rs) hwf0
      rw [List.filter_map]
      have hcong : ((r :: rs).foldl (fun m r => dictInsert m (natKey r) r) []).filter
            ((fun x => natKey x == q) ∘ Prod.snd) =
          ((r :: rs).foldl (fun m r => dictInsert m (natKey r) r) []).filter
            (fun p => p.1 == q) := by
        apply List.filter_congr
        intro p hp
        have := hwf.2 p hp
        simp only [Function.comp_apply]
        rw [this]
      rw [hcong]
      cases hlast : ((r :: rs).filter (fun r => natKey r == q)).getLast? with
      | none =>
        have := foldIns_filter_of_not_mem q (r :: rs) []
          (List.getLast?_eq_none_iff.mp hlast)
        rw [foldIns] at this
        rw [this]
        rfl
      | some r'' =>
        have := foldIns_filter_getLast q (r :: rs) [] r'' hwf0 hlast
        rw [foldIns] at this
        rw [this]
        rfl
  · rfl

theorem mem_foldIns {p : NatKey × DBRecord} :
    ∀ (rs : List DBRecord) (m : List (NatKey × DBRecord)),
      p ∈ foldIns m rs → p ∈ m ∨ p.2 ∈ rs := by
  intro rs
  induction rs with
  | nil => intro m h; left; exact h
  | cons r rs' ih =>
    intro m h
    rcases ih (dictInsert m (natKey r) r) h with h1 | h2
    · rcases mem_dictInsert m (natKey r) r h1 with h3 | h4
      · left; exact h3
      · right; rw [h4]; exact List.mem_cons_self _ _
    · right; exact List.mem_cons_of_mem _ h2

theorem dictInsert_of_not_mem {m : List (NatKey × DBRecord)} {k : NatKey} (v : DBRecord)
    (h : ¬ k ∈ m.map Prod.fst) : dictInsert m k v = m ++ [(k, v)] := by
  induction m with
  | nil => rfl
  | cons p m' ih =>
    have h1 : p.1 ≠ k := by
      intro he
      exact h (by rw [List.map_cons, ← he]; exact List.mem_cons_self _ _)
    have h2 : ¬ k ∈ m'.map Prod.fst := by
      intro hm
      exact h (by rw [List.map_cons]; exact List.mem_cons_of_mem _ hm)
    rw [dictInsert, if_neg (by simpa using h1), ih h2, List.cons_append]

theorem foldIns_of_nodup :
    ∀ (l : List DBRecord) (m : List (NatKey × DBRecord)),
      (∀ r ∈ l, ¬ natKey r ∈ m.map Prod.fst) → (l.map natKey).Nodup →
      foldIns m l = m ++ l.map (fun r => (natKey r, r)) := by
  intro l
  induction l with
  | nil => intro m _ _; simp [foldIns]
  | cons r l' ih =>
    intro m hnotin hnd
    rw [List.map_cons, List.nodup_cons] at hnd
    have hstep : foldIns m (r :: l') = foldIns (dictInsert m (natKey r) r) l' := rfl
    rw [hstep, dictInsert_of_not_mem r (hnotin r (List.mem_cons_self _ _))]
    rw [ih (m ++ [(natKey r, r)]) ?_ hnd.2]
    · simp
    · intro r' hr'
      rw [List.map_append, List.mem_append]
      push_neg
      constructor
      · exact hnotin r' (List.mem_cons_of_mem _ hr')
      · simp only [List.map_cons, List.map_nil, List.mem_singleton]
        intro he
        exact hnd.1 (by rw [← he]; exact List.mem_map_of_mem natKey hr')

theorem remove_duplicates_of_nodup_keys {l : List DBRecord}
    (h : (l.map natKey).Nodup) : remove_duplicates l = l := by
  cases l with
  | nil => rfl
  | cons r rs =>
    rw [remove_duplicates, if_neg (by simp)]
    have := foldIns_of_nodup (r :: rs) [] (by simp) h
    rw [foldIns] at this
    rw [this]
    simp [Function.comp_def]

/-- C10: deduplication is idempotent and synthesizes nothing — applying
`remove_duplicates` to its own output changes nothing, and every output
record is literally one of the input records. -/
theorem remove_duplicates_idempotent_conservative :
    (∀ records : List DBRecord,
      remove_duplicates (remove_duplicates records) = remove_duplicates records)
    ∧ ∀ (records : List DBRecord) (r : DBRecord),
        r ∈ remove_duplicates records → r ∈ records := by
  constructor
  · intro records
    apply remove_duplicates_of_nodup_keys
    cases records with
    | nil => simp [remove_duplicates]
    | cons x xs =>
      rw [remove_duplicates, if_neg (by simp)]
      have hwf := alistWF_foldIns (m := []) (x :: xs) ⟨List.nodup_nil, by simp⟩
      rw [List.map_map]
      have : ((x :: xs).foldl (fun m r => dictInsert m (natKey r) r) []).map
            (natKey ∘ Prod.snd) =
          ((x :: xs).foldl (fun m r => dictInsert m (natKey r) r) []).map Prod.fst := by
        apply List.map_congr_left
        intro p hp
        exact hwf.2 p hp
      rw [this]
      exact hwf.1
  · intro records r hr
    cases records with
    | nil => simp [remove_duplicates] at hr
    | cons x xs =>
      rw [remove_duplicates, if_neg (by simp)] at hr
      rw [List.mem_map] at hr
      obtain ⟨p, hp, hp2⟩ := hr
      rcases mem_foldIns (x :: xs) [] hp with h1 | h2
      · simp at h1
      · rw [← hp2]; exact h2

/-- Witness for C10's membership part at a concrete input. -/
theorem remove_duplicates_conservative_witness :
    ({ loc := "A", loc_zone := "z2", loc_name := "", loc_purpose := "",
       measure_basis := "", oper_capacity := none, design_capacity := none,
       scheduled_qty := none, operationally_available := none,
       total_scheduled := none, gas_day := "2025-10-09", cycle := 1 } : DBRecord) ∈
      [{ loc := "A", loc_zone := "z1", loc_name := "", loc_purpose := "",
         measure_basis := "", oper_capacity := none, design_capacity := none,
         scheduled_qty := none, operationally_available := none,
         total_scheduled := none, gas_day := "2025-10-09", cycle := 1 },
       { loc := "A", loc_zone := "z2", loc_name := "", loc_purpose := "",
         measure_basis := "", oper_capacity := none, design_capacity := none,
         scheduled_qty := none, operationally_available := none,
         total_scheduled := none, gas_day := "2025-10-09", cycle := 1 }] :=
  remove_duplicates_idempotent_conservative.2 _ _ (by decide)

/-! ## Upsert lemmas (C1, C2, C8) -/

theorem natKey_applyUpdate (old new : DBRecord) :
    natKey (applyUpdate old new) = natKey old := rfl

theorem nonKeyCols_applyUpdate (old new : DBRecord) :
    nonKeyCols (applyUpdate old new) = nonKeyCols new := rfl

theorem mem_upsertRow {p : StoreRow} :
    ∀ (s : Store) (r : DBRecord) (t : Nat),
      p ∈ upsertRow s r t → p ∈ s ∨ natKey p.1 = natKey r := by
  intro s
  induction s with
  | nil =>
    intro r t h
    simp [upsertRow] at h
    right; rw [h]
  | cons x s' ih =>
    intro r t h
    rw [upsertRow] at h
    by_cases hx : (natKey x.1 == natKey r) = true
    · rw [if_pos hx] at h
      rcases List.mem_cons.mp h with rfl | hm
      · right; rw [natKey_applyUpdate]; simpa using hx
      · left; exact List.mem_cons_of_mem _ hm
    · rw [if_neg hx] at h
      rcases List.mem_cons.mp h with rfl | hm
      · left; exact List.mem_cons_self _ _
      · rcases ih r t hm with h1 | h2
        · left; exact List.mem_cons_of_mem _ h1
        · right; exact h2

theorem storeWF_upsertRow {s : Store} (r : DBRecord) (t : Nat) (h : storeWF s) :
    storeWF (upsertRow s r t) := by
  induction s with
  | nil => simp [upsertRow, storeWF]
  | cons x s' ih =>
    rw [storeWF, List.map_cons, List.nodup_cons] at h
    rw [upsertRow]
    by_cases hx : (natKey x.1 == natKey r) = true
    · rw [if_pos hx]
      rw [storeWF, List.map_cons, List.nodup_cons, natKey_applyUpdate]
      exact h
    · rw [if_neg hx]
      rw [storeWF, List.map_cons, List.nodup_cons]
      refine ⟨?_, ih h.2⟩
      intro hmem
      rw [List.mem_map] at hmem
      obtain ⟨p, hp, hp1⟩ := hmem
      rcases mem_upsertRow s' r t hp with h1 | h2
      · exact h.1 (List.mem_map.mpr ⟨p, h1, hp1⟩)
      · rw [h2] at hp1
        exact hx (by simp [hp1])

theorem upsertRow_filter {s : Store} (r : DBRecord) (t : Nat) (h : storeWF s) :
    ∃ x : DBRecord,
      (upsertRow s r t).filter (fun p => natKey p.1 == natKey r) = [(x, t)] ∧
      nonKeyCols x = nonKeyCols r ∧ natKey x = natKey r := by
  induction s with
  | nil =>
    exact ⟨r, by simp [upsertRow], rfl, rfl⟩
  | cons p s' ih =>
    rw [storeWF, List.map_cons, List.nodup_cons] at h
    rw [upsertRow]
    by_cases hp : (natKey p.1 == natKey r) = true
    · rw [if_pos hp]
      refine ⟨applyUpdate p.1 r, ?_, nonKeyCols_applyUpdate p.1 r, ?_⟩
      · rw [List.filter_cons,
          if_pos (by rw [natKey_applyUpdate]; exact hp)]
        have hfil : s'.filter (fun p => natKey p.1 == natKey r) = [] := by
          rw [List.filter_eq_nil_iff]
          intro q hq hqk
          have h1 : natKey q.1 = natKey r := by simpa using hqk
          have h2 : natKey p.1 = natKey r := by simpa using hp
          exact h.1 (List.mem_map.mpr ⟨q, hq, by rw [h1, h2]⟩)
        rw [hfil]
      · rw [natKey_applyUpdate]; simpa using hp
    · rw [if_neg hp]
      obtain ⟨x, hx1, hx2, hx3⟩ := ih h.2
      exact ⟨x, by rw [List.filter_cons, if_neg hp, hx1], hx2, hx3⟩

theorem remove_duplicates_singleton (r : DBRecord) : remove_duplicates [r] = [r] := by
  rfl

/-- C1: starting from any store satisfying the unique-key constraint,
upserting a record `r` and then a record `r'` with the same natural key
leaves exactly one row for that key; its non-key columns are `r'`'s and its
timestamp is the second write's.  Both upserts are total operations — a
colliding key updates instead of erroring. -/
theorem upsert_same_key_overwrites (store : Store) (r r' : DBRecord) (t1 t2 : Nat)
    (hwf : storeWF store) (hk : natKey r = natKey r') :
    ∃ x : DBRecord,
      ((insert_records (insert_records store [r] t1).1 [r'] t2).1).filter
        (fun p => natKey p.1 == natKey r) = [(x, t2)] ∧
      nonKeyCols x = nonKeyCols r' ∧ natKey x = natKey r := by
  have h1 : insert_records store [r] t1 = (upsertRow store r t1, 1) := by
    rw [insert_records, if_neg (by simp)]
    rw [remove_duplicates_singleton]
    rfl
  have h2 : insert_records (upsertRow store r t1) [r'] t2 =
      (upsertRow (upsertRow store r t1) r' t2, 1) := by
    rw [insert_records, if_neg (by simp)]
    rw [remove_duplicates_singleton]
    rfl
  rw [h1, h2, hk]
  exact upsertRow_filter r' t2 (storeWF_upsertRow r t1 hwf)

/-- Witness for C1 at a concrete input: two writes with the same key and
different non-key values leave one row carrying the second values. -/
theorem upsert_same_key_overwrites_witness :
    ∃ x : DBRecord,
      ((insert_records
          (insert_records []
            [{ loc := "A", loc_zone := "z1", loc_name := "n1", loc_purpose := "",
               measure_basis := "", oper_capacity := some 1, design_capacity := none,
               scheduled_qty := none, operationally_available := none,
               total_scheduled := none, gas_day := "2025-10-09", cycle := 1 }] 5).1
          [{ loc := "A", loc_zone := "z2", loc_name := "n2", loc_purpose := "",
             measure_basis := "", oper_capacity := some 2, design_capacity := none,
             scheduled_qty := none, operationally_available := none,
             total_scheduled := none, gas_day := "2025-10-09", cycle := 1 }] 9).1).filter
        (fun p => natKey p.1 ==
          natKey { loc := "A", loc_zone := "z1", loc_name := "n1", loc_purpose := "",
                   measure_basis := "", oper_capacity := some 1, design_capacity := none,
                   scheduled_qty := none, operationally_available := none,
                   total_scheduled := none, gas_day := "2025-10-09", cycle := 1 }) =
        [(x, 9)] ∧
      nonKeyCols x =
        nonKeyCols { loc := "A", loc_zone := "z2", loc_name := "n2", loc_purpose := "",
                     measure_basis := "", oper_capacity := some 2, design_capacity := none,
                     scheduled_qty := none, operationally_available := none,
                     total_scheduled := none, gas_day := "2025-10-09", cycle := 1 } ∧
      natKey x =
        natKey { loc := "A", loc_zone := "z1", loc_name := "n1", loc_purpose := "",
                 measure_basis := "", oper_capacity := some 1, design_capacity := none,
                 scheduled_qty := none, operationally_available := none,
                 total_scheduled := none, gas_day := "2025-10-09", cycle := 1 } :=
  upsert_same_key_overwrites [] _ _ 5 9 (by simp [storeWF]) (by decide)

/-! ## Bulk-load lemmas (C2, C8) -/

theorem length_dictInsert (m : List (NatKey × DBRecord)) (k : NatKey) (v : DBRecord) :
    m.length ≤ (dictInsert m k v).length := by
  induction m with
  | nil => simp [dictInsert]
  | cons p m' ih =>
    rw [dictInsert]
    by_cases hp : (p.1 == k) = true
    · rw [if_pos hp]; simp
    · rw [if_neg hp]; simpa using ih

theorem length_foldIns : ∀ (rs : List DBRecord) (m : List (NatKey × DBRecord)),
    m.length ≤ (foldIns m rs).length := by
  intro rs
  induction rs with
  | nil => intro m; exact Nat.le_refl _
  | cons r rs' ih =>
    intro m
    exact Nat.le_trans (length_dictInsert m (natKey r) r) (ih (dictInsert m (natKey r) r))

theorem remove_duplicates_ne_nil {records : List DBRecord} (h : records ≠ []) :
    remove_duplicates records ≠ [] := by
  cases records with
  | nil => exact absurd rfl h
  | cons r rs =>
    rw [remove_duplicates, if_neg (by simp)]
    intro hempty
    have h0 : ((r :: rs).foldl (fun m r => dictInsert m (natKey r) r) []) = [] := by
      have := congrArg List.length hempty
      simp at this
      exact this
    have h1 : (1 : Nat) ≤ ((r :: rs).foldl (fun m r => dictInsert m (natKey r) r) []).length := by
      have hstep : (r :: rs).foldl (fun m r => dictInsert m (natKey r) r) [] =
          foldIns (dictInsert [] (natKey r) r) rs := rfl
      rw [hstep]
      exact Nat.le_trans (by simp [dictInsert]) (length_foldIns rs _)
    rw [h0] at h1
    simp at h1

theorem chunks_flatten : ∀ (n : Nat) (l : List DBRecord), (chunks n l).flatten = l
  | _, [] => by simp [chunks]
  | 0, _ :: _ => by simp [chunks]
  | n + 1, x :: xs => by
    rw [chunks, List.flatten_cons,
      chunks_flatten (n + 1) ((x :: xs).drop (n + 1))]
    exact List.take_append_drop _ _
termination_by _ l => l.length
decreasing_by
  simp only [List.length_drop, List.length_cons]
  omega

theorem applyGroups_flatten (s : Store) (gs : List (List DBRecord)) (t : Nat) :
    applyGroups s gs t = applyGroup s gs.flatten t := by
  induction gs generalizing s with
  | nil => rfl
  | cons g gs' ih =>
    rw [List.flatten_cons]
    calc applyGroups s (g :: gs') t
        = applyGroups (applyGroup s g t) gs' t := rfl
      _ = applyGroup (applyGroup s g t) gs'.flatten t := ih _
      _ = applyGroup s (g ++ gs'.flatten) t := by
          simp only [applyGroup]
          rw [List.foldl_append]

theorem insertGroupsLoop_ok (t : Nat) :
    ∀ (gs : List (List DBRecord)) (s : Store) (k acc : Nat),
      insertGroupsLoop (fun _ => false) t s gs k acc =
        .ok (applyGroups s gs t, acc + (gs.map List.length).sum) := by
  intro gs
  induction gs with
  | nil => intro s k acc; simp [insertGroupsLoop, applyGroups]
  | cons g gs' ih =>
    intro s k acc
    rw [insertGroupsLoop, if_neg (by simp)]
    rw [ih (applyGroup s g t) (k + 1) (acc + g.length)]
    have h1 : applyGroups s (g :: gs') t = applyGroups (applyGroup s g t) gs' t := rfl
    rw [h1, List.map_cons, List.sum_cons, ← Nat.add_assoc]

/-- C2: both bulk-load variants deduplicate their own input before writing
— the committed state is the upsert of the deduplicated records, whatever
the caller passed — and, absent storage failure, both return a count equal
to the size of the deduplicated input (`0` for empty input). -/
theorem bulk_load_dedups_and_counts (s : Store) (records : List DBRecord)
    (t gsz : Nat) :
    insert_records s records t =
      (applyGroup s (remove_duplicates records) t, (remove_duplicates records).length)
    ∧ insert_in_small_groups s records (gsz + 1) (fun _ => false) t =
        .ok (applyGroup s (remove_duplicates records) t,
             (remove_duplicates records).length) := by
  cases records with
  | nil =>
    constructor
    · rw [insert_records, if_pos (by simp)]
      rfl
    · rw [insert_in_small_groups, if_pos (by simp)]
      rfl
  | cons x xs =>
    have hne : remove_duplicates (x :: xs) ≠ [] := remove_duplicates_ne_nil (by simp)
    have hnemp : (remove_duplicates (x :: xs)).isEmpty = false := by
      rw [List.isEmpty_eq_false_iff_exists_mem]
      cases hrd : remove_duplicates (x :: xs) with
      | nil => exact absurd hrd hne
      | cons y ys => exact ⟨y, List.mem_cons_self _ _⟩
    constructor
    · rw [insert_records, if_neg (by simp)]
      simp only [hnemp, Bool.false_eq_true, if_false]
    · rw [insert_in_small_groups, if_neg (by simp)]
      simp only [hnemp, Bool.false_eq_true, if_false]
      rw [insertGroupsLoop_ok]
      rw [applyGroups_flatten, chunks_flatten]
      rw [Nat.zero_add, ← List.length_flatten, chunks_flatten]

/-- C8: in batched mode, when every batch before `k` succeeds and batch `k`'s
storage write fails, the run raises (`Except.error`): the store keeps exactly
the committed effects of batches `0..k-1` (batch `k` is rolled back, later
batches are never attempted), and the running inserted count equals the total
size of those fully committed earlier batches. -/
theorem batched_upsert_partial_failure (s : Store) (records : List DBRecord)
    (gsz : Nat) (fail : Nat → Bool) (t k : Nat)
    (h0 : ∀ j, j < k → fail j = false) (hk : fail k = true)
    (hlt : k < (chunks (gsz + 1) (remove_duplicates records)).length) :
    insert_in_small_groups s records (gsz + 1) fail t =
      .error (applyGroups s ((chunks (gsz + 1) (remove_duplicates records)).take k) t,
        (((chunks (gsz + 1) (remove_duplicates records)).take k).map List.length).sum) := by
  have hloop : ∀ (kk : Nat) (gs : List (List DBRecord)) (ss : Store) (i acc : Nat),
      (∀ j, j < kk → fail (i + j) = false) → fail (i + kk) = true → kk < gs.length →
      insertGroupsLoop fail t ss gs i acc =
        .error (applyGroups ss (gs.take kk) t,
          acc + ((gs.take kk).map List.length).sum) := by
    intro kk
    induction kk with
    | zero =>
      intro gs ss i acc _ hfk hlen
      cases gs with
      | nil => simp at hlen
      | cons g gs' =>
        rw [insertGroupsLoop, if_pos (by rw [← Nat.add_zero i]; exact hfk)]
        simp [applyGroups]
    | succ kk' ih =>
      intro gs ss i acc hprev hfk hlen
      cases gs with
      | nil => simp at hlen
      | cons g gs' =>
        have hfi : fail i = false := by
          have := hprev 0 (Nat.succ_pos _)
          rwa [Nat.add_zero] at this
        rw [insertGroupsLoop, if_neg (by rw [hfi]; simp)]
        rw [ih gs' (applyGroup ss g t) (i + 1) (acc + g.length)
          (by
            intro j hj
            have h1 := hprev (j + 1) (Nat.succ_lt_succ hj)
            rwa [show i + (j + 1) = i + 1 + j by omega] at h1)
          (by rwa [show i + (kk' + 1) = i + 1 + kk' by omega] at hfk)
          (by simpa using hlen)]
        have hg : applyGroups ss ((g :: gs').take (kk' + 1)) t =
            applyGroups (applyGroup ss g t) (gs'.take kk') t := by
          rw [List.take_succ_cons]
          rfl
        rw [hg, List.take_succ_cons, List.map_cons, List.sum_cons, ← Nat.add_assoc]
  have hne : remove_duplicates records ≠ [] := by
    intro h
    rw [h] at hlt
    simp [chunks] at hlt
  have hrecne : records ≠ [] := by
    intro h
    exact hne (by rw [h]; rfl)
  rw [insert_in_small_groups,
    if_neg (by simp only [List.isEmpty_iff]; exact hrecne)]
  have hnemp : (remove_duplicates records).isEmpty = false := by
    cases hrd : remove_duplicates records with
    | nil => exact absurd hrd hne
    | cons y ys => rfl
  simp only [hnemp, Bool.false_eq_true, if_false]
  have hmain := hloop k (chunks (gsz + 1) (remove_duplicates records)) s 0 0
    (by intro j hj; simpa using h0 j hj) (by simpa using hk) hlt
  rw [hmain, Nat.zero_add]

/-- Witness for C8 at a concrete input: three single-record batches, the
second one failing — batch 1 stays committed and counted, batches 2 and 3
do not, and the error propagates. -/
theorem batched_upsert_partial_failure_witness :
    insert_in_small_groups [] [sampleRec "A" 1, sampleRec "B" 2, sampleRec "C" 3] 1
        (fun k => k == 1) 7 =
      .error (applyGroups []
          ((chunks 1 (remove_duplicates
              [sampleRec "A" 1, sampleRec "B" 2, sampleRec "C" 3])).take 1) 7,
        (((chunks 1 (remove_duplicates
              [sampleRec "A" 1, sampleRec "B" 2, sampleRec "C" 3])).take 1).map
            List.length).sum) :=
  batched_upsert_partial_failure [] _ 0 _ 7 1 (by decide) rfl
    (by rw [remove_duplicates_of_nodup_keys (by decide)]; simp [chunks])

/-! ## Fetch-layer lemmas (C6, C7) -/

theorem download_attempts_failed_mid (resp : Nat → HttpResult)
    (files : List (String × String)) (path : String) (a : Nat) (rest : List Nat)
    (calls : Nat) (sleeps : List Nat)
    (h : failedAttempt (resp a) = true) (hne : rest ≠ []) :
    download_attempts resp files path (a :: rest) calls sleeps =
      download_attempts resp files path rest (calls + 1)
        (Config.RETRY_DELAY :: sleeps) := by
  have hre : rest.isEmpty = false := by
    cases rest with
    | nil => exact absurd rfl hne
    | cons b bs => rfl
  cases hresp : resp a with
  | response s ct b =>
    rw [hresp] at h
    have hs : (s == 200) = false := by simpa [failedAttempt] using h
    simp [download_attempts, hresp, hs, hre]
  | exception =>
    simp [download_attempts, hresp, hre]

theorem download_attempts_failed_last (resp : Nat → HttpResult)
    (files : List (String × String)) (path : String) (a : Nat)
    (calls : Nat) (sleeps : List Nat) (h : failedAttempt (resp a) = true) :
    download_attempts resp files path [a] calls sleeps =
      ⟨none, none, files, calls + 1, sleeps.reverse⟩ := by
  cases hresp : resp a with
  | response s ct b =>
    rw [hresp] at h
    have hs : (s == 200) = false := by simpa [failedAttempt] using h
    simp [download_attempts, hresp, hs]
  | exception =>
    simp [download_attempts, hresp]

/-- C6: with no cache entry for the key and an oracle on which every attempt
fails (non-200 status or transport exception), the fetch performs exactly
`MAX_RETRIES` network calls with a `RETRY_DELAY` sleep between consecutive
attempts, and returns `(None, None)` without raising. -/
theorem retry_exhaustion (files : List (String × String)) (resp : Nat → HttpResult)
    (gas_day : String) (cycle : Int)
    (hcache : fileRead files (get_temp_file_path gas_day cycle) = none)
    (hfail : ∀ a, failedAttempt (resp a) = true) :
    download_csv files resp gas_day cycle =
      ⟨none, none, files, Config.MAX_RETRIES,
        List.replicate (Config.MAX_RETRIES - 1) Config.RETRY_DELAY⟩ := by
  have hlist : List.range' 1 Config.MAX_RETRIES = [1, 2, 3] := rfl
  simp only [download_csv, hcache]
  rw [hlist]
  rw [download_attempts_failed_mid _ _ _ _ _ _ _ (hfail 1) (by simp)]
  rw [download_attempts_failed_mid _ _ _ _ _ _ _ (hfail 2) (by simp)]
  rw [download_attempts_failed_last _ _ _ _ _ _ (hfail 3)]
  rfl

/-- Witness for C6 at a concrete input: a target that always answers 500. -/
theorem retry_exhaustion_witness :
    download_csv [] (fun _ => .response 500 "" "") "10/09/2025" 1 =
      ⟨none, none, [], Config.MAX_RETRIES,
        List.replicate (Config.MAX_RETRIES - 1) Config.RETRY_DELAY⟩ :=
  retry_exhaustion [] _ "10/09/2025" 1 rfl (fun _ => rfl)

theorem fileRead_fileWrite (files : List (String × String)) (path content : String) :
    fileRead (fileWrite files path content) path = some content := by
  induction files with
  | nil => simp [fileWrite, fileRead]
  | cons p fs ih =>
    rw [fileWrite]
    by_cases hp : (p.1 == path) = true
    · rw [if_pos hp]
      simp [fileRead]
    · rw [if_neg hp]
      rw [fileRead, List.find?_cons_of_neg _ (by simp [hp])]
      exact ih

/-- C7: fetching twice for the same `(gasDay, cycle)` key issues exactly one
network call — the first call (cache miss, CSV-typed 200 response on the
first attempt) performs one request and writes the cache file, and the
second call returns identical content from the cache with zero network
calls, regardless of what the network would answer. -/
theorem cache_replay (files : List (String × String)) (resp resp2 : Nat → HttpResult)
    (gas_day : String) (cycle : Int) (ct body : String)
    (hcache : fileRead files (get_temp_file_path gas_day cycle) = none)
    (h1 : resp 1 = .response 200 ct body)
    (hct : isCsvContentType ct = true) :
    download_csv files resp gas_day cycle =
      ⟨some body, some (get_temp_file_path gas_day cycle),
        fileWrite files (get_temp_file_path gas_day cycle) body, 1, []⟩ ∧
    download_csv (fileWrite files (get_temp_file_path gas_day cycle) body)
        resp2 gas_day cycle =
      ⟨some body, some (get_temp_file_path gas_day cycle),
        fileWrite files (get_temp_file_path gas_day cycle) body, 0, []⟩ := by
  constructor
  · have hlist : List.range' 1 Config.MAX_RETRIES = [1, 2, 3] := rfl
    simp only [download_csv, hcache]
    rw [hlist]
    simp [download_attempts, h1, hct]
  · simp only [download_csv, fileRead_fileWrite]

/-- Witness for C7 at a concrete input. -/
theorem cache_replay_witness :
    download_csv [] (fun _ => .response 200 "text/csv" "h,v\nA,1") "10/09/2025" 1 =
      ⟨some "h,v\nA,1", some (get_temp_file_path "10/09/2025" 1),
        fileWrite [] (get_temp_file_path "10/09/2025" 1) "h,v\nA,1", 1, []⟩ ∧
    download_csv (fileWrite [] (get_temp_file_path "10/09/2025" 1) "h,v\nA,1")
        (fun _ => .exception) "10/09/2025" 1 =
      ⟨some "h,v\nA,1", some (get_temp_file_path "10/09/2025" 1),
        fileWrite [] (get_temp_file_path "10/09/2025" 1) "h,v\nA,1", 0, []⟩ :=
  cache_replay [] _ _ "10/09/2025" 1 "text/csv" "h,v\nA,1" rfl rfl (by decide)

/-! ## URL construction (C9) -/

theorem pyDictSet_append_of_fresh :
    ∀ (m : List (String × String)) (k v : String),
      (∀ p ∈ m, (p.1 == k) = false) → pyDictSet m k v = m ++ [(k, v)] := by
  intro m
  induction m with
  | nil => intro k v _; rfl
  | cons p m' ih =>
    intro k v h
    rw [pyDictSet, if_neg (by simp [h p (List.mem_cons_self _ _)]),
      ih k v (fun q hq => h q (List.mem_cons_of_mem _ hq)), List.cons_append]

theorem flatten_map_of_singleton {l : List Char} (f : Char → List Char)
    (h : ∀ c ∈ l, f c = [c]) : (l.map f).flatten = l := by
  induction l with
  | nil => rfl
  | cons c cs ih =>
    rw [List.map_cons, List.flatten_cons, h c (List.mem_cons_self _ _),
      ih (fun d hd => h d (List.mem_cons_of_mem _ hd)), List.singleton_append]

/-- C9 counterexample: for the gas day `10/11/2025` the built URL carries the
slashes of the `MM/DD/YYYY` value verbatim — `urllib.parse.quote`'s default
`safe='/'` exempts `'/'`, so the reserved characters of the gas-day value are
*not* percent-encoded as the claim states. -/
theorem build_url_slash_counterexample :
    build_url "10/11/2025" 3 =
      "https://twtransfer.energytransfer.com/ipost/capacity/operationally-available?f=csv&extension=csv&asset=TW&searchType=NOM&searchString=&locType=ALL&locZone=ALL&gasDay=10/11/2025&cycle=3"
    ∧ pyQuote "10/11/2025" = "10/11/2025"
    ∧ '/' ∈ (pyQuote "10/11/2025").toList := by
  set_option maxRecDepth 8192 in
  refine ⟨by decide, by decide, by decide⟩

/-- C9 (amended): the request URL is the fixed base query-parameter set, in
order, followed by a `gasDay` parameter holding `quote(gas_day)` and a
`cycle` parameter holding the literal cycle number — where `quote` (with its
default `safe='/'`) percent-encodes characters outside the unreserved set
*except* the slash, so an `MM/DD/YYYY` gas day (digits and slashes only)
appears verbatim, not percent-encoded. -/
theorem build_url_fixed_params_quoted_gasday :
    (∀ (gas_day : String) (cycle : Int),
      build_url gas_day cycle =
        Config.BASE_URL ++ "?" ++ pyJoin "&"
          ((Config.URL_PARAMS
              ++ [("gasDay", pyQuote gas_day), ("cycle", toString cycle)]).map
            (fun p => p.1 ++ "=" ++ p.2)))
    ∧ ∀ s : String, (∀ c ∈ s.toList, (isAlwaysSafe c || c == '/') = true) →
        pyQuote s = s := by
  constructor
  · intro gas_day cycle
    have hfresh : ∀ p ∈ Config.URL_PARAMS ++ [("gasDay", pyQuote gas_day)],
        (p.1 == "cycle") = false := by
      intro p hp
      rcases List.mem_append.mp hp with hbase | hnew
      · have hb : ∀ q ∈ Config.URL_PARAMS, (q.1 == "cycle") = false := by decide
        exact hb p hbase
      · rw [List.mem_singleton.mp hnew]
        rfl
    rw [build_url,
      pyDictSet_append_of_fresh Config.URL_PARAMS "gasDay" (pyQuote gas_day)
        (by decide),
      pyDictSet_append_of_fresh _ "cycle" (toString cycle) hfresh,
      List.append_assoc]
    rfl
  · intro s h
    rw [pyQuote]
    have hfl : (s.toList.map (fun c =>
        if isAlwaysSafe c || c == '/' then [c]
        else (utf8Bytes c).map percentByte |>.flatten)).flatten = s.toList :=
      flatten_map_of_singleton _ (fun c hc => if_pos (h c hc))
    rw [hfl]
    rfl

/-- Witness for C9 (amended) at a concrete input. -/
theorem build_url_fixed_params_quoted_gasday_witness :
    build_url "10/11/2025" 3 =
      Config.BASE_URL ++ "?" ++ pyJoin "&"
        ((Config.URL_PARAMS
            ++ [("gasDay", pyQuote "10/11/2025"), ("cycle", toString (3 : Int))]).map
          (fun p => p.1 ++ "=" ++ p.2)) ∧
    pyQuote "10/11/2025" = "10/11/2025" :=
  ⟨build_url_fixed_params_quoted_gasday.1 "10/11/2025" 3,
   build_url_fixed_params_quoted_gasday.2 "10/11/2025" (by decide)⟩

end GasApp
